import Mathlib

/-!
Verification development for the salary-table application (`src/table.py`).

The Python source is shallowly embedded: each Python function becomes a Lean
definition over explicit data (strings, lists, rationals for Python floats,
integers for Python ints).  Side channels (`st.warning`, `st.error`) become
explicit return components; the external PDF-building capability
(`reportlab`'s `doc.build`) is a function parameter.
-/

/-! ## Python string primitives -/

/-- Whitespace characters recognised by Python's `str.strip()` / `str.split()`
(ASCII subset: space, tab, newline, carriage return, vertical tab, form feed). -/
def isPyWs (c : Char) : Bool :=
  c == ' ' || c == '\t' || c == '\n' || c == '\r' || c == '\x0b' || c == '\x0c'

/-- Model of Python `str.strip()`: drop leading and trailing whitespace. -/
def pyStrip (s : String) : String :=
  String.mk (((s.data.dropWhile isPyWs).reverse.dropWhile isPyWs).reverse)

/-- Splitter for Python `str.split('\n')`: split at every newline, keeping
empty pieces (so `"a\nb"` gives two pieces and `""` gives one empty piece). -/
def splitNl : List Char → List (List Char)
  | [] => [[]]
  | c :: rest =>
    if c = '\n' then [] :: splitNl rest
    else
      match splitNl rest with
      | [] => [[c]]
      | l :: ls => (c :: l) :: ls

/-- Model of Python `pdf_text.split('\n')`. -/
def splitLines (s : String) : List String :=
  (splitNl s.data).map String.mk

/-- Accumulator loop for Python `str.split()` with no argument: split on runs
of whitespace, emitting no empty tokens.  `cur` holds the current token in
reverse. -/
def splitWsGo (cur : List Char) : List Char → List (List Char)
  | [] => if cur.isEmpty then [] else [cur.reverse]
  | c :: rest =>
    if isPyWs c then
      if cur.isEmpty then splitWsGo [] rest
      else cur.reverse :: splitWsGo [] rest
    else splitWsGo (c :: cur) rest

/-- Model of Python `line.split()` (no separator argument). -/
def pySplitWs (s : String) : List String :=
  (splitWsGo [] s.data).map String.mk

/-- Model of `s.replace(',', '')`: delete every literal comma. -/
def stripCommas (s : String) : String :=
  String.mk (s.data.filter (fun c => c ≠ ','))

/-- Numeric value of a digit string (most significant digit first). -/
def digitsVal (ds : List Char) : Nat :=
  ds.foldl (fun a c => a * 10 + (c.toNat - 48)) 0

/-- Model of Python `int(s)` on a token: optional surrounding whitespace,
optional sign, then a nonempty run of decimal digits.  (Underscore digit
separators of the builtin are not modelled; no token of interest uses them.) -/
def pyInt? (s : String) : Option Int :=
  match (pyStrip s).data with
  | [] => none
  | '+' :: ds =>
    if ds ≠ [] ∧ ds.all Char.isDigit then some (digitsVal ds) else none
  | '-' :: ds =>
    if ds ≠ [] ∧ ds.all Char.isDigit then some (-(digitsVal ds : Int)) else none
  | ds =>
    if ds.all Char.isDigit then some (digitsVal ds) else none

/-- Mantissa of a Python float literal: digits with at most one decimal point,
at least one digit overall.  Returns its exact rational value. -/
def parseMantissa (l : List Char) : Option ℚ :=
  match l.splitOn '.' with
  | [ip] =>
    if ip ≠ [] ∧ ip.all Char.isDigit then some (digitsVal ip) else none
  | [ip, fp] =>
    if (ip ≠ [] ∨ fp ≠ []) ∧ ip.all Char.isDigit ∧ fp.all Char.isDigit then
      some ((digitsVal ip : ℚ) + (digitsVal fp : ℚ) / ((10 : ℚ) ^ fp.length))
    else none
  | _ => none

/-- Exponent part of a Python float literal: optional sign then digits. -/
def parseExp (l : List Char) : Option Int :=
  match l with
  | [] => none
  | '+' :: ds =>
    if ds ≠ [] ∧ ds.all Char.isDigit then some (digitsVal ds) else none
  | '-' :: ds =>
    if ds ≠ [] ∧ ds.all Char.isDigit then some (-(digitsVal ds : Int)) else none
  | ds =>
    if ds.all Char.isDigit then some (digitsVal ds) else none

/-- Model of Python `float(s)` restricted to finite decimal literals:
optional surrounding whitespace, optional sign, mantissa, optional exponent.
(`inf`/`nan` forms have no rational value and are not modelled.) -/
def pyFloat? (s : String) : Option ℚ :=
  let t := (pyStrip s).data
  let signBody : ℚ × List Char :=
    match t with
    | '+' :: r => (1, r)
    | '-' :: r => (-1, r)
    | r => (1, r)
  match signBody.2.splitOnP (fun c => c == 'e' || c == 'E') with
  | [m] => do
    let v ← parseMantissa m
    pure (signBody.1 * v)
  | [m, e] => do
    let v ← parseMantissa m
    let x ← parseExp e
    pure (signBody.1 * v * (10 : ℚ) ^ x)
  | _ => none

/-- All-or-nothing map over `Option`, modelling a Python list comprehension
whose body may raise: the whole list fails if any element fails. -/
def optionMapAll (f : α → Option β) : List α → Option (List β)
  | [] => some []
  | a :: l => do
    let b ← f a
    let bs ← optionMapAll f l
    pure (b :: bs)

/-! ## Data model and record parser (`process_pdf_data`) -/

/-- One parsed employee row, as assembled by `process_pdf_data`
(`[name, total_salary, salary_per_hour] + hours + [total_hours]`). -/
structure EmployeeRecord where
  name : String
  totalSalary : ℚ
  salaryPerHour : ℚ
  dailyHours : List Int
  totalHours : Int
deriving DecidableEq, Repr

/-- Field coercion of the `try` block of `process_pdf_data`: name from
token 0, comma-stripped floats from tokens 1 and 2, seven ints from tokens
3..9, a final int from token 10.  Any failure rejects the whole line. -/
def coerceFields (parts : List String) : Option EmployeeRecord := do
  let totalSalary ← pyFloat? (stripCommas (parts.getD 1 ""))
  let salaryPerHour ← pyFloat? (stripCommas (parts.getD 2 ""))
  let hours ← optionMapAll pyInt? ((parts.drop 3).take 7)
  let totalHours ← pyInt? (parts.getD 10 "")
  pure ⟨parts.getD 0 "", totalSalary, salaryPerHour, hours, totalHours⟩

/-- Outcome of one iteration of the parsing loop: a record is appended, a
warning is emitted (`st.warning` in the `except` branch), or the line is
silently skipped (the `len(parts) >= 11` guard fails, which has no `else`). -/
inductive LineOutcome where
  | accepted (r : EmployeeRecord)
  | warned
  | skipped
deriving DecidableEq, Repr

/-- Decision taken by the loop body of `process_pdf_data` for one line. -/
def classifyLine (line : String) : LineOutcome :=
  let parts := pySplitWs line
  if 11 ≤ parts.length then
    match coerceFields parts with
    | some r => LineOutcome.accepted r
    | none => LineOutcome.warned
  else LineOutcome.skipped

/-- The parsing loop of `process_pdf_data`: walks the data lines carrying the
`processed_data` accumulator and the list of lines reported via
`st.warning`, appending at the end exactly as the Python loop does. -/
def processLoop (acc : List EmployeeRecord) (warns : List String) :
    List String → List EmployeeRecord × List String
  | [] => (acc, warns)
  | line :: rest =>
    match classifyLine line with
    | LineOutcome.accepted r => processLoop (acc ++ [r]) warns rest
    | LineOutcome.warned => processLoop acc (warns ++ [line]) rest
    | LineOutcome.skipped => processLoop acc warns rest

/-- The surviving data lines: drop the first line unconditionally, strip each
remaining line, discard lines that are empty after stripping
(`[line.strip() for line in lines[1:] if line.strip()]`). -/
def dataLines (text : String) : List String :=
  ((splitLines text).drop 1).filterMap
    (fun l => if pyStrip l = "" then none else some (pyStrip l))

/-- Model of `process_pdf_data`: first component is `None` (empty dataset)
or the accepted records in order; second component is the list of lines
reported with a warning. -/
def process_pdf_data (text : String) :
    Option (List EmployeeRecord) × List String :=
  let res := processLoop [] [] (dataLines text)
  (if res.1.isEmpty then none else some res.1, res.2)

/-! ## Deduction calculator (`calculate_deductions`) -/

/-- One output row of `calculate_deductions`. -/
structure DeductionResult where
  name : String
  totalSalary : ℚ
  workedHours : Int
  thresholdHours : Int
  deduction : ℚ
  finalSalary : ℚ
deriving DecidableEq, Repr

/-- Model of `calculate_deductions`: for each record, zero deduction when the
worked hours meet the threshold, otherwise `(threshold - worked) * rate`;
final salary is total salary minus the deduction. -/
def calculate_deductions (records : List EmployeeRecord) (thresholdHours : Int) :
    List DeductionResult :=
  records.map (fun r =>
    let worked := r.totalHours
    let deduction : ℚ :=
      if thresholdHours ≤ worked then 0
      else ((thresholdHours - worked : Int) : ℚ) * r.salaryPerHour
    { name := r.name
      totalSalary := r.totalSalary
      workedHours := worked
      thresholdHours := thresholdHours
      deduction := deduction
      finalSalary := r.totalSalary - deduction })

/-! ## Report renderer (`create_pdf`) -/

/-- A table cell as it appears in the `data` list handed to `Table(...)`:
Python strings stay strings, Python ints stay ints, unformatted floats stay
floats (rationals here). -/
inductive Cell where
  | str (s : String)
  | int (n : Int)
  | rat (q : ℚ)
deriving DecidableEq, Repr

/-- Banker's rounding of a rational to the nearest integer (ties to even),
as Python's fixed-point formatting rounds. -/
def roundHalfEven (q : ℚ) : Int :=
  let f : Int := q.num.fdiv (q.den : Int)
  let frac : ℚ := q - (f : ℚ)
  if frac < 1 / 2 then f
  else if 1 / 2 < frac then f + 1
  else if f % 2 = 0 then f else f + 1

/-- Model of the f-string `f"{x:.2f}"`: fixed two-decimal rendering. -/
def fmt2 (q : ℚ) : String :=
  let n := roundHalfEven (q * 100)
  let sign := if n < 0 then "-" else ""
  let m := n.natAbs
  let frac := m % 100
  sign ++ toString (m / 100) ++ "." ++
    (if frac < 10 then "0" ++ toString frac else toString frac)

/-- Column names of the result table (`df.columns`). -/
def resultColumns : List String :=
  ["Name", "Total Salary", "Worked Hours", "Threshold Hours",
   "Deduction", "Final Salary"]

/-- One row of the result table before formatting (`df.values`): the six
fields of a `DeductionResult` in column order. -/
def resultRow (r : DeductionResult) : List Cell :=
  [Cell.str r.name, Cell.rat r.totalSalary, Cell.int r.workedHours,
   Cell.int r.thresholdHours, Cell.rat r.deduction, Cell.rat r.finalSalary]

/-- One column assignment `formatted_df[col] = formatted_df[col].apply(lambda x: f"{x:.2f}")`,
applied to the cell at position `i` of a row. -/
def fmtCellAt (row : List Cell) (i : Nat) : List Cell :=
  row.set i
    (match row.getD i (Cell.str "") with
     | Cell.rat q => Cell.str (fmt2 q)
     | c => c)

/-- The three formatting assignments of `create_pdf`: Total Salary (column 1),
Deduction (column 4) and Final Salary (column 5) become fixed two-decimal
strings; all other cells pass through untouched. -/
def formatRow (row : List Cell) : List Cell :=
  fmtCellAt (fmtCellAt (fmtCellAt row 1) 4) 5

/-- The `data` list built in `create_pdf`:
`[df.columns.tolist()] + formatted_df.values.tolist()`. -/
def tableData (results : List DeductionResult) : List (List Cell) :=
  (resultColumns.map Cell.str) :: results.map (fun r => formatRow (resultRow r))

/-- The in-memory byte buffer (`io.BytesIO`), abstracted to the table content
written into it and the current stream position. -/
structure Buffer where
  contents : List (List Cell)
  pos : Nat
deriving DecidableEq, Repr

/-- Model of `create_pdf`.  The external document-building capability
(`doc.build`) is passed as a function on the table data; when it raises, the
`except` branch returns `None`, otherwise `buffer.seek(0)` runs and the
buffer is returned at position 0. -/
def create_pdf (build : List (List Cell) → Except String Unit)
    (results : List DeductionResult) : Option Buffer :=
  let data := tableData results
  match build data with
  | Except.ok _ => some { contents := data, pos := 0 }
  | Except.error _ => none

/-- The pipeline of `main` after text extraction: parse, and only when a
dataset exists, calculate deductions and render the PDF. -/
def runPipeline (build : List (List Cell) → Except String Unit)
    (text : String) (thresholdHours : Int) : Option Buffer :=
  match (process_pdf_data text).1 with
  | none => none
  | some recs => create_pdf build (calculate_deductions recs thresholdHours)

/-- The record produced by one line, if any (the `accepted` case of the loop). -/
def recOf (line : String) : Option EmployeeRecord :=
  match classifyLine line with
  | LineOutcome.accepted r => some r
  | _ => none

/-- The warning produced by one line, if any (the `warned` case of the loop). -/
def warnOf (line : String) : Option String :=
  match classifyLine line with
  | LineOutcome.warned => some line
  | _ => none

/-!  ## Helper lemmas -/

lemma processLoop_eq (ls : List String) :
    ∀ acc warns, processLoop acc warns ls =
      (acc ++ ls.filterMap recOf, warns ++ ls.filterMap warnOf) := by
  induction ls with
  | nil => intro acc warns; simp [processLoop]
  | cons line rest ih =>
    intro acc warns
    cases h : classifyLine line with
    | accepted r =>
      simp [processLoop, h, ih, recOf, warnOf, List.filterMap_cons]
    | warned =>
      simp [processLoop, h, ih, recOf, warnOf, List.filterMap_cons]
    | skipped =>
      simp [processLoop, h, ih, recOf, warnOf, List.filterMap_cons]

lemma process_pdf_data_fst_eq (text : String) (rs : List EmployeeRecord)
    (h : (process_pdf_data text).1 = some rs) :
    rs = (dataLines text).filterMap recOf := by
  unfold process_pdf_data at h
  rw [processLoop_eq] at h
  simp only [List.nil_append] at h
  by_cases he : ((dataLines text).filterMap recOf).isEmpty
  · simp [he] at h
  · simp [he] at h
    exact h.symm

lemma process_pdf_data_none_iff (text : String) :
    (process_pdf_data text).1 = none ↔ (dataLines text).filterMap recOf = [] := by
  unfold process_pdf_data
  rw [processLoop_eq]
  simp only [List.nil_append]
  by_cases he : ((dataLines text).filterMap recOf).isEmpty
  · simp [he, List.isEmpty_iff.mp he]
  · simp [he, List.isEmpty_iff.not.mp he]

lemma mem_zip_map {α β : Type} (f : α → β) (l : List α) (p : α × β)
    (h : p ∈ l.zip (l.map f)) : p.2 = f p.1 := by
  induction l with
  | nil => simp at h
  | cons a l ih =>
    simp only [List.map_cons, List.zip_cons_cons, List.mem_cons] at h
    rcases h with h | h
    · rw [h]
    · exact ih h

lemma classifyLine_accepted (line : String) (r : EmployeeRecord)
    (h : classifyLine line = LineOutcome.accepted r) :
    11 ≤ (pySplitWs line).length ∧ coerceFields (pySplitWs line) = some r := by
  unfold classifyLine at h
  by_cases hl : 11 ≤ (pySplitWs line).length
  · refine ⟨hl, ?_⟩
    rw [if_pos hl] at h
    cases hc : coerceFields (pySplitWs line) with
    | none => rw [hc] at h; cases h
    | some s => rw [hc] at h; cases h; rfl
  · rw [if_neg hl] at h; cases h

lemma coerceFields_eq_some (parts : List String) (r : EmployeeRecord)
    (h : coerceFields parts = some r) :
    r.name = parts.getD 0 "" ∧
    pyFloat? (stripCommas (parts.getD 1 "")) = some r.totalSalary ∧
    pyFloat? (stripCommas (parts.getD 2 "")) = some r.salaryPerHour ∧
    optionMapAll pyInt? ((parts.drop 3).take 7) = some r.dailyHours ∧
    pyInt? (parts.getD 10 "") = some r.totalHours := by
  unfold coerceFields at h
  cases h1 : pyFloat? (stripCommas (parts.getD 1 "")) with
  | none => rw [h1] at h; cases h
  | some ts =>
    rw [h1] at h
    cases h2 : pyFloat? (stripCommas (parts.getD 2 "")) with
    | none => rw [h2] at h; cases h
    | some rate =>
      rw [h2] at h
      cases h3 : optionMapAll pyInt? ((parts.drop 3).take 7) with
      | none => rw [h3] at h; cases h
      | some hrs =>
        rw [h3] at h
        cases h4 : pyInt? (parts.getD 10 "") with
        | none => rw [h4] at h; cases h
        | some th =>
          rw [h4] at h
          have hr := Option.some.inj h
          subst hr
          exact ⟨rfl, rfl, rfl, rfl, rfl⟩

lemma optionMapAll_length {α β : Type} (f : α → Option β) :
    ∀ (l : List α) (ys : List β), optionMapAll f l = some ys →
      ys.length = l.length := by
  intro l
  induction l with
  | nil => intro ys h; simp [optionMapAll] at h; simp [← h]
  | cons a l ih =>
    intro ys h
    unfold optionMapAll at h
    cases hf : f a with
    | none => rw [hf] at h; cases h
    | some b =>
      rw [hf] at h
      cases hr : optionMapAll f l with
      | none => rw [hr] at h; cases h
      | some bs =>
        rw [hr] at h
        have he := Option.some.inj h
        subst he
        simp [ih bs hr]

lemma splitWsGo_ne_nil :
    ∀ (l cur : List Char) (t : List Char), t ∈ splitWsGo cur l → t ≠ [] := by
  intro l
  induction l with
  | nil =>
    intro cur t ht
    unfold splitWsGo at ht
    by_cases hc : cur.isEmpty
    · rw [if_pos hc] at ht
      simp at ht
    · rw [if_neg hc] at ht
      have he := List.mem_singleton.mp ht
      subst he
      intro e
      exact hc (by rw [List.reverse_eq_nil_iff.mp e]; rfl)
  | cons c rest ih =>
    intro cur t ht
    unfold splitWsGo at ht
    by_cases hw : isPyWs c
    · rw [if_pos hw] at ht
      by_cases hc : cur.isEmpty
      · rw [if_pos hc] at ht
        exact ih [] t ht
      · rw [if_neg hc] at ht
        rcases List.mem_cons.mp ht with h | h
        · subst h
          intro e
          exact hc (by rw [List.reverse_eq_nil_iff.mp e]; rfl)
        · exact ih [] t h
    · rw [if_neg hw] at ht
      exact ih (c :: cur) t ht

lemma pySplitWs_ne_empty (s : String) (t : String) (h : t ∈ pySplitWs s) :
    t ≠ "" := by
  unfold pySplitWs at h
  rcases List.mem_map.mp h with ⟨l, hl, he⟩
  have := splitWsGo_ne_nil s.data [] l hl
  intro e
  subst he
  apply this
  have : l = String.data (String.mk l) := rfl
  rw [this, e]

lemma splitNl_append (l r : List Char) (h : '\n' ∉ l) :
    splitNl (l ++ '\n' :: r) = l :: splitNl r := by
  induction l with
  | nil => simp [splitNl]
  | cons c cs ih =>
    have hc : c ≠ '\n' := fun e => h (e ▸ List.mem_cons_self c cs)
    have hcs : '\n' ∉ cs := fun m => h (List.mem_cons_of_mem c m)
    rw [List.cons_append]
    simp only [splitNl, if_neg hc, ih hcs]

lemma splitLines_append (l rest : String) (h : '\n' ∉ l.data) :
    splitLines (l ++ "\n" ++ rest) = l :: splitLines rest := by
  unfold splitLines
  have hd : (l ++ "\n" ++ rest).data = l.data ++ '\n' :: rest.data := by
    simp [String.data_append]
  rw [hd, splitNl_append l.data rest.data h]
  simp

lemma getD_take_eleven (parts : List String) (i : Nat) (hi : i < 11) :
    (parts.take 11).getD i "" = parts.getD i "" := by
  rw [List.getD_eq_getElem?_getD, List.getD_eq_getElem?_getD,
    List.getElem?_take_of_lt hi]

lemma coerceFields_take11 (parts : List String) :
    coerceFields (parts.take 11) = coerceFields parts := by
  unfold coerceFields
  rw [getD_take_eleven parts 0 (by omega), getD_take_eleven parts 1 (by omega),
    getD_take_eleven parts 2 (by omega), getD_take_eleven parts 10 (by omega)]
  have hd : ((parts.take 11).drop 3).take 7 = (parts.drop 3).take 7 := by
    rw [List.drop_take, List.take_take]
    norm_num
  rw [hd]

/-! ## Concrete fixtures used by witnesses and counterexamples -/

/-- The record of spec Example 2. -/
def aliceRec : EmployeeRecord :=
  { name := "Alice", totalSalary := 2000, salaryPerHour := 25,
    dailyHours := [8, 8, 8, 8, 8, 0, 0], totalHours := 40 }

/-- A record with a zero hourly rate and zero worked hours. -/
def zeroRateRec : EmployeeRecord :=
  { name := "Zed", totalSalary := 100, salaryPerHour := 0,
    dailyHours := [0, 0, 0, 0, 0, 0, 0], totalHours := 0 }

/-- The data line of spec Example 2, with a thousands-separator comma. -/
def aliceLine : String := "Alice 2,000.00 25.00 8 8 8 8 8 0 0 40"

/-- The same line with a twelfth token appended. -/
def extraLine : String := "Alice 2,000.00 25.00 8 8 8 8 8 0 0 40 EXTRA"

/-- A header followed by a data line whose numeric tokens are all negative. -/
def negLineText : String := "h\nBob -5.0 -2.0 1 1 1 1 1 1 1 -7"

/-- A header followed by a data line whose total-hours token contains a
thousands-separator comma. -/
def commaHoursText : String := "h\nBob 2,000.00 25.00 8 8 8 8 8 0 0 1,000"

/-- A header, a 3-token line, and a valid data line. -/
def shortLineText : String :=
  "h\nBob 1 2\nAlice 2,000.00 25.00 8 8 8 8 8 0 0 40"

/-- A second valid data line. -/
def bobLine : String := "Bob 100.00 1.00 1 1 1 1 1 1 1 7"

/-- The record parsed from `bobLine`. -/
def bobRec : EmployeeRecord :=
  { name := "Bob", totalSalary := 100, salaryPerHour := 1,
    dailyHours := [1, 1, 1, 1, 1, 1, 1], totalHours := 7 }

/-- A header followed by the Alice and Bob data lines, in that order. -/
def twoRecText : String :=
  "h\nAlice 2,000.00 25.00 8 8 8 8 8 0 0 40\nBob 100.00 1.00 1 1 1 1 1 1 1 7"

/-! ## Claim theorems -/

/-- C1 counterexample: with a zero hourly rate and zero worked hours against
threshold 1, `calculate_deductions` produces `deduction = 0` even though
`workedHours < thresholdHours`, so "deduction == 0 exactly when
workedHours >= thresholdHours" is false as stated. -/
theorem calculate_deductions_zero_rate_cex :
    ¬ (∀ d ∈ calculate_deductions [zeroRateRec] 1,
        (d.deduction = 0 ↔ d.thresholdHours ≤ d.workedHours)) := by
  with_unfolding_all decide

/-- C1 (amended): for every record list and non-negative threshold,
`calculate_deductions` returns one result per record in the same order; each
result carries the record's name, total salary and worked hours and the
shared threshold; `deduction = 0` when `workedHours ≥ thresholdHours` and
`deduction = (thresholdHours − workedHours) · salaryPerHour` otherwise;
`finalSalary = totalSalary − deduction`; moreover `deduction ≥ 0` whenever
`workedHours < thresholdHours` provided `salaryPerHour ≥ 0`, and
`deduction = 0` is equivalent to `workedHours ≥ thresholdHours` provided
`salaryPerHour > 0`. -/
theorem calculate_deductions_spec (records : List EmployeeRecord) (t : Int)
    (ht : 0 ≤ t) :
    (calculate_deductions records t).length = records.length ∧
    ∀ p ∈ records.zip (calculate_deductions records t),
      p.2.name = p.1.name ∧
      p.2.totalSalary = p.1.totalSalary ∧
      p.2.workedHours = p.1.totalHours ∧
      p.2.thresholdHours = t ∧
      (t ≤ p.1.totalHours → p.2.deduction = 0) ∧
      (p.1.totalHours < t →
        p.2.deduction = ((t - p.1.totalHours : Int) : ℚ) * p.1.salaryPerHour) ∧
      p.2.finalSalary = p.1.totalSalary - p.2.deduction ∧
      (p.1.totalHours < t → 0 ≤ p.1.salaryPerHour → 0 ≤ p.2.deduction) ∧
      (0 < p.1.salaryPerHour → (p.2.deduction = 0 ↔ t ≤ p.1.totalHours)) := by
  constructor
  · simp [calculate_deductions]
  · intro p hp
    have h2 := mem_zip_map _ records p hp
    rw [h2]
    set r := p.1 with hr
    by_cases hw : t ≤ r.totalHours
    · refine ⟨rfl, rfl, rfl, rfl, fun _ => by simp [calculate_deductions, hw],
        fun hlt => absurd hw (not_le.mpr hlt), by simp [calculate_deductions],
        fun hlt => absurd hw (not_le.mpr hlt),
        fun _ => ⟨fun _ => hw, fun _ => by simp [calculate_deductions, hw]⟩⟩
    · have hlt : r.totalHours < t := not_le.mp hw
      have hded : ((t - r.totalHours : Int) : ℚ) = (t : ℚ) - (r.totalHours : ℚ) := by
        push_cast
        ring
      have hpos : (0 : ℚ) < ((t - r.totalHours : Int) : ℚ) := by
        exact_mod_cast Int.sub_pos.mpr hlt
      refine ⟨rfl, rfl, rfl, rfl, fun hge => absurd hge hw,
        fun _ => by simp [calculate_deductions, hw],
        by simp [calculate_deductions], ?_, ?_⟩
      · intro _ hrate
        simp only [calculate_deductions, if_neg hw]
        exact mul_nonneg (le_of_lt hpos) hrate
      · intro hrate
        constructor
        · intro hzero
          exfalso
          have : (0 : ℚ) < ((t - r.totalHours : Int) : ℚ) * r.salaryPerHour :=
            mul_pos hpos hrate
          simp only [calculate_deductions, if_neg hw] at hzero
          rw [hzero] at this
          exact lt_irrefl 0 this
        · intro hge
          exact absurd hge hw

/-- C1 witness: the amended theorem applied to spec Example 3
(Alice with threshold 45). -/
theorem calculate_deductions_spec_witness :
    (0 : Int) ≤ 45 ∧
      (calculate_deductions [aliceRec] 45).length = [aliceRec].length :=
  ⟨by decide, (calculate_deductions_spec [aliceRec] 45 (by decide)).1⟩

set_option maxRecDepth 8000

lemma recOf_eq_some (line : String) (r : EmployeeRecord)
    (h : recOf line = some r) :
    classifyLine line = LineOutcome.accepted r := by
  unfold recOf at h
  cases hcl : classifyLine line with
  | accepted s =>
    rw [hcl] at h
    cases h
    rfl
  | warned => rw [hcl] at h; cases h
  | skipped => rw [hcl] at h; cases h

/-- C2 counterexample: the parser retains a record whose total salary, hourly
rate and total hours are all negative, so the data-model invariant
(decimals and hours non-negative) does not hold for every retained record. -/
theorem process_pdf_data_negative_cex :
    process_pdf_data negLineText =
      (some [{ name := "Bob", totalSalary := -5, salaryPerHour := -2,
               dailyHours := [1, 1, 1, 1, 1, 1, 1], totalHours := -7 }], []) := by
  with_unfolding_all decide

/-- C2 (amended): every `EmployeeRecord` retained by the parser has a
non-empty name and exactly 7 daily-hour entries, and its numeric fields are
well-typed decimals and integers; the parser does not enforce
non-negativity of any numeric field. -/
theorem process_pdf_data_record_shape (text : String)
    (rs : List EmployeeRecord) (h : (process_pdf_data text).1 = some rs) :
    ∀ r ∈ rs, r.name ≠ "" ∧ r.dailyHours.length = 7 := by
  intro r hr
  rw [process_pdf_data_fst_eq text rs h] at hr
  rcases List.mem_filterMap.mp hr with ⟨line, hline, hrec⟩
  have hcl := recOf_eq_some line r hrec
  rcases classifyLine_accepted line r hcl with ⟨hlen, hco⟩
  rcases coerceFields_eq_some _ _ hco with ⟨hname, _, _, hhours, _⟩
  constructor
  · cases hp : pySplitWs line with
    | nil => rw [hp] at hlen; simp at hlen
    | cons p ps =>
      rw [hp] at hname
      simp only [List.getD_cons_zero] at hname
      rw [hname]
      exact pySplitWs_ne_empty line p (hp ▸ List.mem_cons_self p ps)
  · have hlen7 := optionMapAll_length pyInt? _ _ hhours
    rw [hlen7]
    simp only [List.length_take, List.length_drop]
    omega

/-- C2 witness: the amended theorem applied to a two-record input, then
instantiated at the first retained record. -/
theorem process_pdf_data_record_shape_witness :
    (process_pdf_data twoRecText).1 = some [aliceRec, bobRec] ∧
      (aliceRec.name ≠ "" ∧ aliceRec.dailyHours.length = 7) := by
  refine ⟨by with_unfolding_all decide, ?_⟩
  exact process_pdf_data_record_shape twoRecText [aliceRec, bobRec]
    (by with_unfolding_all decide) aliceRec (List.mem_cons_self aliceRec [bobRec])

/-- C3: the parse stage yields no dataset exactly when no line of the input
was accepted, however many lines were rejected; and when it yields no
dataset, the downstream pipeline (deduction calculation and rendering)
produces nothing. -/
theorem empty_dataset_iff (text : String)
    (build : List (List Cell) → Except String Unit) (t : Int) :
    ((process_pdf_data text).1 = none ↔
      ∀ line ∈ dataLines text, ∀ r, classifyLine line ≠ LineOutcome.accepted r) ∧
    ((process_pdf_data text).1 = none → runPipeline build text t = none) := by
  constructor
  · rw [process_pdf_data_none_iff, List.filterMap_eq_nil_iff]
    constructor
    · intro hall line hline r hacc
      have hn := hall line hline
      unfold recOf at hn
      rw [hacc] at hn
      cases hn
    · intro hall line hline
      unfold recOf
      cases hcl : classifyLine line with
      | accepted r => exact absurd hcl (hall line hline r)
      | warned => rfl
      | skipped => rfl
  · intro hnone
    unfold runPipeline
    rw [hnone]

/-- C4 counterexample: an input containing a 3-token line yields a dataset
without that line yet an empty warning list — the short line is rejected
silently, not recorded with a reason in the rejection report. -/
theorem short_line_not_reported_cex :
    process_pdf_data shortLineText = (some [aliceRec], []) := by
  with_unfolding_all decide

/-- C4 (amended): a line with fewer than 11 whitespace-separated tokens is
rejected silently: it contributes neither a record nor a rejection-report
entry, and parsing of the surrounding lines continues unchanged. -/
theorem short_line_skipped (line : String)
    (h : (pySplitWs line).length < 11) (pre post : List String) :
    processLoop [] [] (pre ++ line :: post) = processLoop [] [] (pre ++ post) := by
  have hcl : classifyLine line = LineOutcome.skipped := by
    unfold classifyLine
    rw [if_neg (not_le.mpr h)]
  have hrec : recOf line = none := by
    unfold recOf
    rw [hcl]
  have hwarn : warnOf line = none := by
    unfold warnOf
    rw [hcl]
  rw [processLoop_eq, processLoop_eq]
  simp [List.filterMap_append, List.filterMap_cons, hrec, hwarn]

/-- C4 witness: the amended theorem applied to the 3-token line `"Bob 1 2"`
inserted before a valid data line. -/
theorem short_line_skipped_witness :
    (pySplitWs "Bob 1 2").length < 11 ∧
      processLoop [] [] ([] ++ "Bob 1 2" :: [bobLine]) =
        processLoop [] [] ([] ++ [bobLine]) :=
  ⟨by with_unfolding_all decide,
   short_line_skipped "Bob 1 2" (by with_unfolding_all decide) [] [bobLine]⟩

/-- C5 counterexample: a line whose total-hours token is `"1,000"` is
rejected (and warned about), because commas are stripped only from the two
salary tokens — `int(parts[10])` sees the comma and fails, contradicting the
claim that every numeric field is comma-stripped before parsing. -/
theorem comma_in_hours_cex :
    process_pdf_data commaHoursText =
      (none, ["Bob 2,000.00 25.00 8 8 8 8 8 0 0 1,000"]) := by
  with_unfolding_all decide

/-- C5 (amended): on every accepted line, the comma-stripping of numeric
tokens applies to totalSalary (token 1) and salaryPerHour (token 2) only;
the seven dailyHours tokens and the totalHours token are parsed as integers
without comma stripping.  Commas are never token delimiters: splitting is on
whitespace alone. -/
theorem comma_stripping_salary_only (line : String) (r : EmployeeRecord)
    (h : classifyLine line = LineOutcome.accepted r) :
    pyFloat? (stripCommas ((pySplitWs line).getD 1 "")) = some r.totalSalary ∧
    pyFloat? (stripCommas ((pySplitWs line).getD 2 "")) = some r.salaryPerHour ∧
    optionMapAll pyInt? (((pySplitWs line).drop 3).take 7) = some r.dailyHours ∧
    pyInt? ((pySplitWs line).getD 10 "") = some r.totalHours := by
  rcases classifyLine_accepted line r h with ⟨_, hco⟩
  rcases coerceFields_eq_some _ _ hco with ⟨_, h1, h2, h3, h4⟩
  exact ⟨h1, h2, h3, h4⟩

/-- C5 witness: the amended theorem applied to spec Example 2's line, whose
total-salary token `"2,000.00"` contains a thousands-separator comma and is
accepted as the single token of value 2000. -/
theorem comma_stripping_salary_only_witness :
    classifyLine aliceLine = LineOutcome.accepted aliceRec ∧
      pyFloat? (stripCommas ((pySplitWs aliceLine).getD 1 "")) =
        some aliceRec.totalSalary :=
  ⟨by with_unfolding_all decide,
   (comma_stripping_salary_only aliceLine aliceRec
     (by with_unfolding_all decide)).1⟩

/-- The header line of spec Example 1. -/
def headerLine : String := "Name TotalSalary Rate D1 D2 D3 D4 D5 D6 D7 Total"

/-- C6: the first line of the input is dropped unconditionally — the parse
result does not depend on it at all, so it never contributes a record, even
when it would coerce successfully as a data line. -/
theorem first_line_dropped (l₁ l₂ rest : String)
    (h₁ : '\n' ∉ l₁.data) (h₂ : '\n' ∉ l₂.data) :
    process_pdf_data (l₁ ++ "\n" ++ rest) =
      process_pdf_data (l₂ ++ "\n" ++ rest) := by
  have hd : ∀ l : String, '\n' ∉ l.data →
      dataLines (l ++ "\n" ++ rest) = (splitLines rest).filterMap
        (fun x => if pyStrip x = "" then none else some (pyStrip x)) := by
    intro l hl
    unfold dataLines
    rw [splitLines_append l rest hl]
    rfl
  unfold process_pdf_data
  rw [hd l₁ h₁, hd l₂ h₂]

/-- C6 witness: replacing a first line that parses perfectly as data
(Example 2's line) by the Example 1 header changes nothing about the result. -/
theorem first_line_dropped_witness :
    ('\n' ∉ aliceLine.data ∧ '\n' ∉ headerLine.data) ∧
      process_pdf_data (aliceLine ++ "\n" ++ bobLine) =
        process_pdf_data (headerLine ++ "\n" ++ bobLine) :=
  ⟨⟨by with_unfolding_all decide, by with_unfolding_all decide⟩,
   first_line_dropped aliceLine headerLine bobLine
     (by with_unfolding_all decide) (by with_unfolding_all decide)⟩

/-- C7: parsing is line-order-preserving — the accepted records are exactly
the per-line parses of the surviving data lines, collected by an
order-preserving filter-map over those lines. -/
theorem parse_order_preserving (text : String) (rs : List EmployeeRecord)
    (h : (process_pdf_data text).1 = some rs) :
    rs = (dataLines text).filterMap recOf :=
  process_pdf_data_fst_eq text rs h

/-- C7 witness: a two-record input yields Alice then Bob, in source order. -/
theorem parse_order_preserving_witness :
    (process_pdf_data twoRecText).1 = some [aliceRec, bobRec] ∧
      [aliceRec, bobRec] = (dataLines twoRecText).filterMap recOf :=
  ⟨by with_unfolding_all decide,
   parse_order_preserving twoRecText [aliceRec, bobRec]
     (by with_unfolding_all decide)⟩

/-- C8: `create_pdf` returns no artifact exactly when the document-building
capability raises, and on success the returned buffer is positioned at
offset 0 and holds the built table data. -/
theorem create_pdf_spec (build : List (List Cell) → Except String Unit)
    (results : List DeductionResult) :
    (create_pdf build results = none ↔
      ∃ e, build (tableData results) = Except.error e) ∧
    (∀ b, create_pdf build results = some b →
      b.pos = 0 ∧ b.contents = tableData results) := by
  cases hb : build (tableData results) with
  | ok u =>
    constructor
    · simp [create_pdf, hb]
    · intro b hsome
      simp [create_pdf, hb] at hsome
      rw [← hsome]
      exact ⟨rfl, rfl⟩
  | error e =>
    constructor
    · simp [create_pdf, hb]
    · intro b hsome
      simp [create_pdf, hb] at hsome

/-- C9: in the table handed to the document builder, every body-row cell of
the Total Salary, Deduction and Final Salary columns is the fixed
two-decimal string of the corresponding result value, while the Worked Hours
and Threshold Hours cells carry the integer values through unformatted. -/
theorem table_body_formatting (results : List DeductionResult) (i : Nat)
    (hi : i < results.length) :
    (tableData results).getD (i + 1) [] =
      [Cell.str results[i].name,
       Cell.str (fmt2 results[i].totalSalary),
       Cell.int results[i].workedHours,
       Cell.int results[i].thresholdHours,
       Cell.str (fmt2 results[i].deduction),
       Cell.str (fmt2 results[i].finalSalary)] := by
  have h1 : (tableData results).getD (i + 1) [] =
      (results.map (fun r => formatRow (resultRow r))).getD i [] := rfl
  rw [h1, List.getD_eq_getElem?_getD, List.getElem?_map,
    List.getElem?_eq_getElem hi]
  rfl

/-- C9 witness: the theorem applied to Example 3's single result row. -/
theorem table_body_formatting_witness :
    0 < (calculate_deductions [aliceRec] 45).length ∧
      (tableData (calculate_deductions [aliceRec] 45)).getD 1 [] =
        [Cell.str "Alice", Cell.str "2000.00", Cell.int 40, Cell.int 45,
         Cell.str "125.00", Cell.str "1875.00"] := by
  refine ⟨by with_unfolding_all decide, ?_⟩
  rw [table_body_formatting (calculate_deductions [aliceRec] 45) 0
    (by with_unfolding_all decide)]
  with_unfolding_all decide

/-- C10: a line with more than 11 tokens is never rejected for its length,
and it is accepted with record `r` exactly when the first 11 tokens coerce
to `r` — tokens beyond position 10 are ignored. -/
theorem extra_tokens_ignored (line : String)
    (h : 11 < (pySplitWs line).length) :
    classifyLine line ≠ LineOutcome.skipped ∧
    ∀ r, (classifyLine line = LineOutcome.accepted r ↔
      coerceFields ((pySplitWs line).take 11) = some r) := by
  have hle : 11 ≤ (pySplitWs line).length := le_of_lt h
  constructor
  · unfold classifyLine
    rw [if_pos hle]
    cases coerceFields (pySplitWs line) <;> simp
  · intro r
    rw [coerceFields_take11]
    constructor
    · intro hacc
      exact (classifyLine_accepted line r hacc).2
    · intro hco
      unfold classifyLine
      rw [if_pos hle, hco]

/-- C10 witness: Example 2's line with a twelfth token appended is not
skipped for its length. -/
theorem extra_tokens_ignored_witness :
    11 < (pySplitWs extraLine).length ∧
      classifyLine extraLine ≠ LineOutcome.skipped :=
  ⟨by with_unfolding_all decide,
   (extra_tokens_ignored extraLine (by with_unfolding_all decide)).1⟩
